import Mathlib

/-!
Verification of the Ironn_core route-table and dispatch layer.

Shallow embedding of `src/server.rs` and `src/router/route.rs`.  The external
HTTP engine (actix-web) is out of scope per the specification; only the
registration surface and response/error values this crate observes are
modelled, following the spec's description of the collaborator contract.
-/

namespace Ironn

/-- Model of actix-web's `HttpResponse` as observed by this crate: an HTTP
status code plus a body. -/
structure HttpResponse where
  status : Nat
  body : String
deriving DecidableEq

/-- Model of `actix_web::Error` as observed by this crate: the carried message
and the HTTP status the engine renders the error with. -/
structure ActixError where
  message : String
  status : Nat
deriving DecidableEq

/-- Modelled from the spec: actix-web's `ErrorInternalServerError` constructor
(external engine code, not in `src/`); per spec sections 6 and 7 an opaque
handler error is rendered as an HTTP 500 response carrying the message. -/
def ErrorInternalServerError (message : String) : ActixError :=
  { message := message, status := 500 }

/-- `ActixResult<HttpResponse>`: the result type produced by one handler
invocation (`server.rs` line 1). -/
abbrev ActixResult := Except ActixError HttpResponse

/-- The `Handler` type of `server.rs` lines 15-16: a shared, re-invocable
zero-argument asynchronous closure producing an `ActixResult`.  An invocation
is modelled by applying the handler to the index of that invocation, so that
hypothetical handlers whose successive invocations differ are representable. -/
abbrev Handler := Nat → ActixResult

/-- The `HttpMethod` enum of `server.rs` lines 6-12. -/
inductive HttpMethod where
  | Get
  | Post
  | Put
  | Delete
deriving DecidableEq

/-- A `PubRoute` of `server.rs` lines 19-24: one route descriptor. -/
structure PubRoute where
  path : String
  method : HttpMethod
  handler : Handler

/-- The `IronnServer` of `server.rs` lines 27-29: the route table. -/
structure IronnServer where
  routes : List PubRoute

/-- `IronnServer::new` (`server.rs` lines 33-35). -/
def IronnServer.new : IronnServer := { routes := [] }

/-- `IronnServer::public_route` (`server.rs` lines 38-50): wraps the handler in
a fresh shareable closure that just invokes it, and pushes one descriptor onto
the table. -/
def IronnServer.public_route (s : IronnServer) (path : String)
    (method : HttpMethod) (handler : Handler) : IronnServer :=
  { routes := s.routes ++
      [{ path := path, method := method, handler := fun inv => handler inv }] }

/-- `IronnServer::route_count` (`server.rs` lines 119-121). -/
def IronnServer.route_count (s : IronnServer) : Nat :=
  s.routes.length

/-- The four per-method registration primitives of the external engine
(`web::get` / `web::post` / `web::put` / `web::delete`), spec section 6. -/
inductive EnginePrimitive where
  | get
  | post
  | put
  | delete
deriving DecidableEq

/-- Modelled from the spec: the value produced by `web::METHOD().to(closure)`,
i.e. a method guard together with the closure the engine will invoke. -/
structure EngineRouteSpec where
  primitive : EnginePrimitive
  closure : Handler

/-- Models `web::get().to(closure)`. -/
def web_get (closure : Handler) : EngineRouteSpec :=
  { primitive := .get, closure := closure }

/-- Models `web::post().to(closure)`. -/
def web_post (closure : Handler) : EngineRouteSpec :=
  { primitive := .post, closure := closure }

/-- Models `web::put().to(closure)`. -/
def web_put (closure : Handler) : EngineRouteSpec :=
  { primitive := .put, closure := closure }

/-- Models `web::delete().to(closure)`. -/
def web_delete (closure : Handler) : EngineRouteSpec :=
  { primitive := .delete, closure := closure }

/-- One registration recorded by the external engine: which method primitive
was used, at which path, with which closure. -/
structure EngineRegistration where
  primitive : EnginePrimitive
  path : String
  closure : Handler

/-- Modelled from the spec: the external engine's application object, reduced
to the ordered list of registrations performed on it (matching itself is the
engine's business, spec section 4.2). -/
structure EngineApp where
  registrations : List EngineRegistration

/-- Models `App::new()`. -/
def EngineApp.new : EngineApp := { registrations := [] }

/-- Models `app.route(path, spec)`: records one registration. -/
def EngineApp.route (app : EngineApp) (path : String)
    (spec : EngineRouteSpec) : EngineApp :=
  { registrations := app.registrations ++
      [{ primitive := spec.primitive, path := path, closure := spec.closure }] }

/-- One iteration of the registration loop inside `create_app`
(`server.rs` lines 128-168): the four-way match on the route's method. -/
def createAppStep (app : EngineApp) (route : PubRoute) : EngineApp :=
  match route.method with
  | .Get => app.route route.path (web_get (fun inv => route.handler inv))
  | .Post => app.route route.path (web_post (fun inv => route.handler inv))
  | .Put => app.route route.path (web_put (fun inv => route.handler inv))
  | .Delete => app.route route.path (web_delete (fun inv => route.handler inv))

/-- `IronnServer::create_app` (`server.rs` lines 124-170): the in-memory test
service constructor. -/
def IronnServer.create_app (s : IronnServer) : EngineApp :=
  List.foldl createAppStep EngineApp.new s.routes

/-- One iteration of the registration loop inside the per-worker app factory of
`bind` (`server.rs` lines 68-109).  The source duplicates the `create_app`
match verbatim; the duplication is kept here. -/
def bindFactoryStep (app : EngineApp) (route : PubRoute) : EngineApp :=
  match route.method with
  | .Get => app.route route.path (web_get (fun inv => route.handler inv))
  | .Post => app.route route.path (web_post (fun inv => route.handler inv))
  | .Put => app.route route.path (web_put (fun inv => route.handler inv))
  | .Delete => app.route route.path (web_delete (fun inv => route.handler inv))

/-- The app built by one invocation of the `HttpServer::new` factory closure in
`bind` (`server.rs` lines 64-112). -/
def bindAppFactory (routes : List PubRoute) : EngineApp :=
  List.foldl bindFactoryStep EngineApp.new routes

/-- The diagnostic line printed for one route inside the factory closure of
`bind` (`server.rs` line 70): the method name is hard-coded to GET. -/
def bindRouteLogLine (route : PubRoute) : String :=
  "📍 Registering: GET " ++ route.path

/-- Observable description of `IronnServer::bind` (`server.rs` lines 58-116):
the address bound, the startup diagnostics, the per-route registration
diagnostics emitted by the factory closure, and the app each worker builds.
The socket itself belongs to the external engine and is out of scope. -/
structure ServerRun where
  address : String
  startupLog : List String
  registrationLog : List String
  app : EngineApp

/-- `IronnServer::bind` (`server.rs` lines 58-116). -/
def IronnServer.bind (s : IronnServer) (address : String) : ServerRun :=
  { address := address,
    startupLog :=
      ["🚀 IronnServer starting on http://" ++ address,
       "📋 Routes registered: " ++ toString s.routes.length],
    registrationLog := s.routes.map bindRouteLogLine,
    app := bindAppFactory s.routes }

/-- `IronnServer::run` (`server.rs` lines 53-55). -/
def IronnServer.run (s : IronnServer) : ServerRun :=
  s.bind "127.0.0.1:8080"

/-- `text_response` (`server.rs` lines 176-181): a handler that always
succeeds with status 200 and the given body. -/
def text_response (content : String) : Handler :=
  fun _inv => Except.ok { status := 200, body := content }

/-- `error_response` (`server.rs` lines 211-216): a handler that always fails
with `ErrorInternalServerError(message)`. -/
def error_response (message : String) : Handler :=
  fun _inv => Except.error (ErrorInternalServerError message)

/-- The name of each HTTP method, as it would appear in a diagnostic. -/
def HttpMethod.name : HttpMethod → String
  | .Get => "GET"
  | .Post => "POST"
  | .Put => "PUT"
  | .Delete => "DELETE"

/-- The one-to-one method translation performed by the four-way match arms of
the dispatcher (`server.rs` lines 72-109 and 130-167). -/
def methodPrimitive : HttpMethod → EnginePrimitive
  | .Get => .get
  | .Post => .post
  | .Put => .put
  | .Delete => .delete

/-- The `Method` enum of `router/route.rs` lines 10-15. -/
inductive Method where
  | GET
  | POST
  | PUT
  | DELETE
deriving DecidableEq

/-- The `Route` struct of `router/route.rs` lines 3-7. -/
structure Route where
  path : String
  method : Method

/-- The `RouterHandler` trait of `router/route.rs` lines 17-19, as the type of
its single capability. -/
structure RouterHandler where
  handle : Unit → HttpResponse

/-- One route-registration call: the arguments of one `public_route`
invocation. -/
structure RouteCall where
  path : String
  method : HttpMethod
  handler : Handler

/-- Applies a sequence of `public_route` calls, in order, to a server. -/
def applyCalls (s : IronnServer) (calls : List RouteCall) : IronnServer :=
  List.foldl (fun srv c => srv.public_route c.path c.method c.handler) s calls

/-- A concrete handler used for closed sample statements. -/
def demoHandler : Handler :=
  fun _inv => Except.ok { status := 200, body := "ok" }

/-! Helper lemmas about the registration loops. -/

theorem applyCalls_routes (calls : List RouteCall) (s : IronnServer) :
    (applyCalls s calls).routes = s.routes ++ calls.map
      (fun c => { path := c.path, method := c.method, handler := c.handler }) := by
  induction calls generalizing s with
  | nil => simp [applyCalls]
  | cons c cs ih =>
    simp only [applyCalls, List.foldl_cons, List.map_cons]
    rw [show List.foldl (fun srv c => srv.public_route c.path c.method c.handler)
        (s.public_route c.path c.method c.handler) cs
      = applyCalls (s.public_route c.path c.method c.handler) cs from rfl, ih]
    simp [IronnServer.public_route, List.append_assoc]

theorem createAppStep_registrations (app : EngineApp) (r : PubRoute) :
    (createAppStep app r).registrations = app.registrations ++
      [{ primitive := methodPrimitive r.method, path := r.path,
         closure := r.handler }] := by
  cases hm : r.method <;>
    simp [createAppStep, hm, EngineApp.route, web_get, web_post, web_put,
      web_delete, methodPrimitive]

theorem bindFactoryStep_registrations (app : EngineApp) (r : PubRoute) :
    (bindFactoryStep app r).registrations = app.registrations ++
      [{ primitive := methodPrimitive r.method, path := r.path,
         closure := r.handler }] := by
  cases hm : r.method <;>
    simp [bindFactoryStep, hm, EngineApp.route, web_get, web_post, web_put,
      web_delete, methodPrimitive]

theorem createApp_foldl (routes : List PubRoute) (app : EngineApp) :
    (List.foldl createAppStep app routes).registrations =
      app.registrations ++ routes.map
        (fun r => { primitive := methodPrimitive r.method, path := r.path,
                    closure := r.handler }) := by
  induction routes generalizing app with
  | nil => simp
  | cons r rs ih =>
    rw [List.foldl_cons, ih, createAppStep_registrations]
    simp [List.append_assoc]

theorem bindFactory_foldl (routes : List PubRoute) (app : EngineApp) :
    (List.foldl bindFactoryStep app routes).registrations =
      app.registrations ++ routes.map
        (fun r => { primitive := methodPrimitive r.method, path := r.path,
                    closure := r.handler }) := by
  induction routes generalizing app with
  | nil => simp
  | cons r rs ih =>
    rw [List.foldl_cons, ih, bindFactoryStep_registrations]
    simp [List.append_assoc]

theorem bindFactoryStep_eq_createAppStep :
    bindFactoryStep = createAppStep := by
  funext app r
  cases hm : r.method <;> simp [bindFactoryStep, createAppStep, hm]

/-! The claims. -/

/-- C1: starting from `IronnServer::new()` and applying any sequence of
`public_route` calls, `route_count()` returns exactly the number of calls, and
the stored descriptors appear in call order with the given paths, methods and
handlers. -/
theorem route_count_and_order_after_calls (calls : List RouteCall) :
    (applyCalls IronnServer.new calls).route_count = calls.length ∧
    (applyCalls IronnServer.new calls).routes = calls.map
      (fun c => { path := c.path, method := c.method, handler := c.handler }) := by
  have h := applyCalls_routes calls IronnServer.new
  rw [show IronnServer.new.routes = [] from rfl, List.nil_append] at h
  exact ⟨by simp [IronnServer.route_count, h], h⟩

/-- C2: for every route table, registration with the engine is the direct
one-to-one method mapping: each descriptor is registered exactly once, in
order, through the primitive matching its method, at its own path, and the
registered closure is exactly the stored handler.  This holds both for
`create_app` and for the app built by `bind`'s factory closure. -/
theorem registration_is_one_to_one_method_mapping (s : IronnServer) :
    s.create_app.registrations = s.routes.map
      (fun r => { primitive := methodPrimitive r.method, path := r.path,
                  closure := r.handler }) ∧
    (bindAppFactory s.routes).registrations = s.routes.map
      (fun r => { primitive := methodPrimitive r.method, path := r.path,
                  closure := r.handler }) := by
  constructor
  · rw [IronnServer.create_app, createApp_foldl]
    simp [EngineApp.new]
  · rw [bindAppFactory, bindFactory_foldl]
    simp [EngineApp.new]

/-- C3: `public_route` accepts every call unconditionally — any path (the
empty string included), any method, any handler — never fails, performs no
validation or duplicate detection, and appends exactly one descriptor storing
the given path verbatim. -/
theorem public_route_unconditional_append (s : IronnServer) (path : String)
    (method : HttpMethod) (handler : Handler) :
    (s.public_route path method handler).routes =
      s.routes ++ [{ path := path, method := method, handler := handler }] ∧
    (s.public_route path method handler).route_count = s.route_count + 1 := by
  refine ⟨rfl, ?_⟩
  simp [IronnServer.public_route, IronnServer.route_count]

/-- C4: evaluation of the registration diagnostic at a POST route.  The line
emitted by `bind` for the route `POST /x` is literally `Registering: GET /x`
(with the pin emoji prefix) — it names GET, not the route's actual method
POST, refuting the claim that the diagnostic names the actual method. -/
theorem bind_log_says_GET_for_post_route :
    ((IronnServer.new.public_route "/x" .Post demoHandler).bind
        "127.0.0.1:8080").registrationLog = ["📍 Registering: GET /x"] ∧
    "📍 Registering: GET /x" ≠
      "📍 Registering: " ++ HttpMethod.Post.name ++ " /x" := by
  exact ⟨rfl, by decide⟩

/-- C5: `run()` is exactly the convenience form of `bind`: for every route
table it produces the same observable behaviour as `bind("127.0.0.1:8080")`. -/
theorem run_is_bind_default (s : IronnServer) :
    s.run = s.bind "127.0.0.1:8080" := rfl

/-- C6: for every string, every invocation of the handler produced by
`text_response` returns a successful result with status 200 and body exactly
the given string; it never fails. -/
theorem text_response_ok (content : String) (inv : Nat) :
    text_response content inv =
      Except.ok { status := 200, body := content } := rfl

/-- C8: for every message, every invocation of the handler produced by
`error_response` returns a failing result (never a success), namely an
internal-server-error outcome whose rendered status 500 lies in the
server-error range and whose message carries the given message verbatim. -/
theorem error_response_always_fails (message : String) (inv : Nat) :
    error_response message inv =
      Except.error (ErrorInternalServerError message) ∧
    (error_response message inv).isOk = false ∧
    500 ≤ (ErrorInternalServerError message).status ∧
    (ErrorInternalServerError message).status < 600 ∧
    (ErrorInternalServerError message).message = message := by
  refine ⟨rfl, rfl, ?_, ?_, rfl⟩ <;> simp [ErrorInternalServerError]

/-- C9: `create_app` and the per-worker app construction inside `bind` apply
identical registration logic: for every route table both build the very same
engine application. -/
theorem bind_factory_equals_create_app (s : IronnServer) :
    bindAppFactory s.routes = s.create_app := by
  rw [bindAppFactory, IronnServer.create_app, bindFactoryStep_eq_createAppStep]

/-- C10: the handlers produced by `text_response` and `error_response` are
deterministic: any two invocations of the same produced handler yield
identical results, with no state carried between invocations. -/
theorem response_helpers_deterministic (content message : String) (i j : Nat) :
    text_response content i = text_response content j ∧
    error_response message i = error_response message j :=
  ⟨rfl, rfl⟩

/-! JSON model.  `json_response` delegates serialization to the external
engine (`HttpResponse::Ok().json(data)`, backed by serde_json) and the test
harness parses bodies back with `serde_json::from_slice`; neither collaborator
is code under `src/`, so both are modelled from the spec below: a serializable
value is represented by its JSON representation, serialization produces the
standard compact JSON text, and parsing reads it back. -/

/-- Modelled from the spec: a JSON value (the representation of a serializable
value handed to `json_response`).  Numbers are integers; the spec's round-trip
property is about structural deep equality. -/
inductive Json where
  | null
  | bool (b : Bool)
  | num (i : Int)
  | str (s : String)
  | arr (elems : List Json)
  | obj (members : List (String × Json))

/-- The opening-brace character, written by code point. -/
def lbrace : Char := Char.ofNat 123

/-- The closing-brace character, written by code point. -/
def rbrace : Char := Char.ofNat 125

/-- Decimal digit characters of a natural number, most significant first. -/
def natChars (n : Nat) : List Char :=
  if n = 0 then ['0'] else (Nat.digits 10 n).reverse.map Nat.digitChar

/-- Numeric value of a decimal digit character. -/
def digitVal (c : Char) : Nat := c.toNat - 48

/-- Value of a list of decimal digit characters, most significant first. -/
def digitsToNat (ds : List Char) : Nat :=
  ds.foldl (fun acc c => 10 * acc + digitVal c) 0

/-- Four hexadecimal digit characters of a code point below 0x10000. -/
def hex4 (n : Nat) : List Char :=
  [Nat.digitChar (n / 4096 % 16), Nat.digitChar (n / 256 % 16),
   Nat.digitChar (n / 16 % 16), Nat.digitChar (n % 16)]

/-- Value of one hexadecimal digit character, if it is one. -/
def fromHex (c : Char) : Option Nat :=
  if 48 ≤ c.toNat ∧ c.toNat ≤ 57 then some (c.toNat - 48)
  else if 97 ≤ c.toNat ∧ c.toNat ≤ 102 then some (c.toNat - 87)
  else if 65 ≤ c.toNat ∧ c.toNat ≤ 70 then some (c.toNat - 55)
  else none

/-- JSON escaping of one character inside a string literal: quote, backslash
and the common control characters get two-character escapes, any other control
character a four-digit hexadecimal escape, and everything else stands for
itself. -/
def escapeChar (c : Char) : List Char :=
  if c = '"' then ['\\', '"']
  else if c = '\\' then ['\\', '\\']
  else if c = '\n' then ['\\', 'n']
  else if c = '\t' then ['\\', 't']
  else if c = '\r' then ['\\', 'r']
  else if c.toNat < 32 then '\\' :: 'u' :: hex4 c.toNat
  else [c]

/-- JSON escaping of a whole string body. -/
def escChars : List Char → List Char
  | [] => []
  | c :: cs => escapeChar c ++ escChars cs

/-- The characters of the keyword `null`. -/
def nullChars : List Char := ['n', 'u', 'l', 'l']

/-- The characters of the keyword `true`. -/
def trueChars : List Char := ['t', 'r', 'u', 'e']

/-- The characters of the keyword `false`. -/
def falseChars : List Char := ['f', 'a', 'l', 's', 'e']

mutual

/-- Modelled from the spec: compact JSON serialization of a value, as the
external engine's `HttpResponse::json` produces for the response body. -/
def serV : Json → List Char
  | .null => nullChars
  | .bool true => trueChars
  | .bool false => falseChars
  | .num i => if i < 0 then '-' :: natChars i.natAbs else natChars i.toNat
  | .str s => '"' :: (escChars s.data ++ ['"'])
  | .arr xs => '[' :: (serElems xs ++ [']'])
  | .obj ms => lbrace :: (serMembers ms ++ [rbrace])

/-- Serialization of the comma-separated element list of an array. -/
def serElems : List Json → List Char
  | [] => []
  | [x] => serV x
  | x :: y :: ys => serV x ++ ',' :: serElems (y :: ys)

/-- Serialization of the comma-separated member list of an object. -/
def serMembers : List (String × Json) → List Char
  | [] => []
  | [(k, v)] => '"' :: (escChars k.data ++ ('"' :: ':' :: serV v))
  | (k, v) :: m :: ms =>
      '"' :: (escChars k.data ++ ('"' :: ':' :: (serV v ++ ',' :: serMembers (m :: ms))))

end

/-- The un-escaping of a single-character escape sequence. -/
def unescapeChar (e : Char) : Option Char :=
  if e = '"' then some '"'
  else if e = '\\' then some '\\'
  else if e = '/' then some '/'
  else if e = 'n' then some '\n'
  else if e = 't' then some '\t'
  else if e = 'r' then some '\r'
  else if e = 'b' then some (Char.ofNat 8)
  else if e = 'f' then some (Char.ofNat 12)
  else none

/-- Modelled from the spec: the parse of a JSON string body (everything after
the opening quote), returning the decoded characters and the input following
the closing quote.  Consumes at least one input character per step, so the
fuel only needs to exceed the number of decoded characters. -/
def parseStrBody : Nat → List Char → Option (List Char × List Char)
  | 0, _ => none
  | _ + 1, [] => none
  | fuel + 1, c :: l =>
    if c = '"' then some ([], l)
    else if c = '\\' then
      match l with
      | [] => none
      | e :: l2 =>
        if e = 'u' then
          match l2 with
          | h1 :: h2 :: h3 :: h4 :: l3 =>
            match fromHex h1, fromHex h2, fromHex h3, fromHex h4 with
            | some a, some b, some c2, some d =>
              if Nat.isValidChar (((a * 16 + b) * 16 + c2) * 16 + d) then
                (parseStrBody fuel l3).map
                  (fun p => (Char.ofNat (((a * 16 + b) * 16 + c2) * 16 + d) :: p.1, p.2))
              else none
            | _, _, _, _ => none
          | _ => none
        else
          match unescapeChar e with
          | some u => (parseStrBody fuel l2).map (fun p => (u :: p.1, p.2))
          | none => none
    else (parseStrBody fuel l).map (fun p => (c :: p.1, p.2))

/-- True when the input does not continue with a decimal digit (so a numeral
just parsed cannot be extended). -/
def headNotDigit : List Char → Bool
  | [] => true
  | c :: _ => !c.isDigit

/-- Longest digit run at the front of the input, and the remainder. -/
def takeDigits : List Char → List Char × List Char
  | [] => ([], [])
  | c :: l =>
    if c.isDigit then
      let p := takeDigits l
      (c :: p.1, p.2)
    else ([], c :: l)

/-- Parse of a non-negative JSON numeral starting at the given input. -/
def parseNum (l : List Char) : Option (Json × List Char) :=
  match takeDigits l with
  | ([], _) => none
  | (ds, r) => some (.num ((digitsToNat ds : Nat) : Int), r)

/-- Parse of the digits following a leading minus sign. -/
def parseNeg (l : List Char) : Option (Json × List Char) :=
  match takeDigits l with
  | ([], _) => none
  | (ds, r) => some (.num (-(digitsToNat ds : Int)), r)

/-- Parse of the keyword `null` after its leading character. -/
def parseNullKw : List Char → Option (Json × List Char)
  | 'u' :: 'l' :: 'l' :: rest => some (.null, rest)
  | _ => none

/-- Parse of the keyword `true` after its leading character. -/
def parseTrueKw : List Char → Option (Json × List Char)
  | 'r' :: 'u' :: 'e' :: rest => some (.bool true, rest)
  | _ => none

/-- Parse of the keyword `false` after its leading character. -/
def parseFalseKw : List Char → Option (Json × List Char)
  | 'a' :: 'l' :: 's' :: 'e' :: rest => some (.bool false, rest)
  | _ => none

/-- Modelled from the spec: the recursive JSON parser, as the test harness's
`serde_json::from_slice` reads a body back.  Mode 0 parses one value, mode 1
the remainder of an array after its opening bracket (producing `.arr`), mode 2
the remainder of an object after its opening brace (producing `.obj`).  Fuel
decreases at every recursive descent. -/
def parseCore : Nat → Nat → List Char → Option (Json × List Char)
  | 0, _, _ => none
  | _ + 1, 0, [] => none
  | fuel + 1, 0, c :: l =>
    if c.isDigit then parseNum (c :: l)
    else if c = '-' then parseNeg l
    else if c = '"' then
      (parseStrBody (fuel + 1) l).map (fun p => (Json.str (String.mk p.1), p.2))
    else if c = '[' then parseCore fuel 1 l
    else if c = lbrace then parseCore fuel 2 l
    else if c = 'n' then parseNullKw l
    else if c = 't' then parseTrueKw l
    else if c = 'f' then parseFalseKw l
    else none
  | _ + 1, 1, [] => none
  | fuel + 1, 1, c :: l =>
    if c = ']' then some (.arr [], l)
    else
      match parseCore fuel 0 (c :: l) with
      | none => none
      | some (v, r) =>
        match r with
        | ',' :: r2 =>
          (match parseCore fuel 1 r2 with
           | some (.arr vs, r3) => some (.arr (v :: vs), r3)
           | _ => none)
        | ']' :: r2 => some (.arr [v], r2)
        | _ => none
  | _ + 1, 2, [] => none
  | fuel + 1, 2, c :: l =>
    if c = rbrace then some (.obj [], l)
    else if c = '"' then
      match parseStrBody (fuel + 1) l with
      | none => none
      | some (ks, r) =>
        match r with
        | ':' :: r2 =>
          (match parseCore fuel 0 r2 with
           | none => none
           | some (v, r3) =>
             match r3 with
             | ',' :: r4 =>
               (match parseCore fuel 2 r4 with
                | some (.obj ms, r5) => some (.obj ((String.mk ks, v) :: ms), r5)
                | _ => none)
             | c4 :: r4 =>
               if c4 = rbrace then some (.obj [(String.mk ks, v)], r4) else none
             | _ => none)
        | _ => none
    else none
  | _ + 1, _ + 3, _ => none

/-- Modelled from the spec: parse a whole JSON document; succeeds only when
the input is exactly one JSON value. -/
def parseJson (s : String) : Option Json :=
  match parseCore (s.data.length + 1) 0 s.data with
  | some (v, []) => some v
  | _ => none

/-- Modelled from the spec: the JSON text of a value, as a string. -/
def serializeJson (v : Json) : String :=
  String.mk (serV v)

/-- The `json_response` helper (`server.rs` lines 184-194): clones the data
and produces a 200 response whose body is the engine's JSON serialization of
that data.  The serializable value is represented by its JSON
representation. -/
def json_response (data : Json) : Handler :=
  fun _inv => Except.ok { status := 200, body := serializeJson data }

/-! Round-trip lemmas: digits. -/

theorem digitChar_isDigit : ∀ d : Nat, d < 10 → (Nat.digitChar d).isDigit = true := by
  decide

theorem digitVal_digitChar : ∀ d : Nat, d < 10 → digitVal (Nat.digitChar d) = d := by
  decide

theorem fromHex_digitChar : ∀ d : Nat, d < 16 → fromHex (Nat.digitChar d) = some d := by
  decide

theorem natChars_all_digits (n : Nat) : ∀ c ∈ natChars n, c.isDigit = true := by
  intro c hc
  rw [natChars] at hc
  by_cases h : n = 0
  · rw [if_pos h] at hc
    simp only [List.mem_singleton] at hc
    subst hc; decide
  · rw [if_neg h] at hc
    simp only [List.mem_map, List.mem_reverse] at hc
    obtain ⟨d, hd, rfl⟩ := hc
    exact digitChar_isDigit d (Nat.digits_lt_base (by norm_num) hd)

theorem natChars_ne_nil (n : Nat) : natChars n ≠ [] := by
  rw [natChars]
  by_cases h : n = 0
  · rw [if_pos h]; simp
  · rw [if_neg h]
    simp only [ne_eq, List.map_eq_nil_iff, List.reverse_eq_nil_iff]
    exact Nat.digits_ne_nil_iff_ne_zero.mpr h

theorem natChars_cons (n : Nat) : ∃ c cs, natChars n = c :: cs := by
  cases h : natChars n with
  | nil => exact absurd h (natChars_ne_nil n)
  | cons c cs => exact ⟨c, cs, rfl⟩

theorem digitsToNat_rev_map (L : List Nat) (hL : ∀ d ∈ L, d < 10) :
    digitsToNat (L.reverse.map Nat.digitChar) = Nat.ofDigits 10 L := by
  induction L with
  | nil => rfl
  | cons d L ih =>
    have hd : d < 10 := hL d (by simp)
    have hL' : ∀ x ∈ L, x < 10 := fun x hx => hL x (by simp [hx])
    simp only [List.reverse_cons, List.map_append, List.map_cons, List.map_nil]
    rw [digitsToNat, List.foldl_append]
    rw [show List.foldl (fun acc c => 10 * acc + digitVal c) 0
          (L.reverse.map Nat.digitChar)
        = digitsToNat (L.reverse.map Nat.digitChar) from rfl, ih hL']
    simp only [List.foldl_cons, List.foldl_nil, Nat.ofDigits_cons]
    rw [digitVal_digitChar d hd]
    ring

theorem digitsToNat_natChars (n : Nat) : digitsToNat (natChars n) = n := by
  by_cases h : n = 0
  · subst h; decide
  · rw [natChars, if_neg h,
      digitsToNat_rev_map _ (fun d hd => Nat.digits_lt_base (by norm_num) hd),
      Nat.ofDigits_digits]

theorem takeDigits_append (pre rest : List Char)
    (hpre : ∀ c ∈ pre, c.isDigit = true) (hrest : headNotDigit rest = true) :
    takeDigits (pre ++ rest) = (pre, rest) := by
  induction pre with
  | nil =>
    simp only [List.nil_append]
    cases rest with
    | nil => rfl
    | cons c l =>
      have hc : c.isDigit = false := by
        have := hrest
        simp only [headNotDigit, Bool.not_eq_true'] at this
        exact this
      rw [takeDigits, if_neg (by simp [hc])]
  | cons c pre ih =>
    have hc : c.isDigit = true := hpre c (by simp)
    rw [List.cons_append, takeDigits, if_pos hc,
      ih (fun x hx => hpre x (by simp [hx]))]

theorem parseNum_digits (pre rest : List Char)
    (h1 : ∀ c ∈ pre, c.isDigit = true) (h2 : headNotDigit rest = true)
    (h3 : pre ≠ []) :
    parseNum (pre ++ rest) = some (.num ((digitsToNat pre : Nat) : Int), rest) := by
  obtain ⟨c, cs, rfl⟩ := List.exists_cons_of_ne_nil h3
  rw [parseNum, takeDigits_append _ _ h1 h2]

theorem parseNeg_digits (pre rest : List Char)
    (h1 : ∀ c ∈ pre, c.isDigit = true) (h2 : headNotDigit rest = true)
    (h3 : pre ≠ []) :
    parseNeg (pre ++ rest) = some (.num (-(digitsToNat pre : Int)), rest) := by
  obtain ⟨c, cs, rfl⟩ := List.exists_cons_of_ne_nil h3
  rw [parseNeg, takeDigits_append _ _ h1 h2]

/-! Round-trip lemmas: string bodies. -/

theorem escapeChar_length_pos (c : Char) : 1 ≤ (escapeChar c).length := by
  rw [escapeChar]
  split_ifs <;> simp

theorem length_le_escChars (cs : List Char) : cs.length ≤ (escChars cs).length := by
  induction cs with
  | nil => simp [escChars]
  | cons c cs ih =>
    rw [escChars, List.length_append, List.length_cons]
    have := escapeChar_length_pos c
    omega

theorem isValidChar_toNat (c : Char) : Nat.isValidChar c.toNat := c.valid

theorem parseStrBody_ord (f : Nat) (c : Char) (l : List Char)
    (hq : ¬ c = '"') (hb : ¬ c = '\\') :
    parseStrBody (f + 1) (c :: l) =
      (parseStrBody f l).map (fun p => (c :: p.1, p.2)) := by
  simp only [parseStrBody]
  rw [if_neg hq, if_neg hb]

theorem parseStrBody_hex (f : Nat) (h1 h2 h3 h4 : Char) (l : List Char) :
    parseStrBody (f + 1) ('\\' :: 'u' :: h1 :: h2 :: h3 :: h4 :: l) =
      match fromHex h1, fromHex h2, fromHex h3, fromHex h4 with
      | some a, some b, some c2, some d =>
        if Nat.isValidChar (((a * 16 + b) * 16 + c2) * 16 + d) then
          (parseStrBody f l).map
            (fun p => (Char.ofNat (((a * 16 + b) * 16 + c2) * 16 + d) :: p.1, p.2))
        else none
      | _, _, _, _ => none := rfl

theorem parseStrBody_escape (cs : List Char) : ∀ (fuel : Nat) (rest : List Char),
    cs.length < fuel →
    parseStrBody fuel (escChars cs ++ '"' :: rest) = some (cs, rest) := by
  induction cs with
  | nil =>
    intro fuel rest h
    match fuel, h with
    | f + 1, _ => rfl
  | cons c cs ih =>
    intro fuel rest h
    match fuel, h with
    | f + 1, h =>
      have hlen : cs.length < f := by
        simp only [List.length_cons] at h; omega
      rw [escChars, List.append_assoc]
      by_cases hq : c = '"'
      · subst hq
        rw [show escapeChar '"' = ['\\', '"'] from rfl]
        rw [show (['\\', '"'] : List Char) ++ (escChars cs ++ '"' :: rest)
            = '\\' :: '"' :: (escChars cs ++ '"' :: rest) from rfl]
        rw [show parseStrBody (f + 1) ('\\' :: '"' :: (escChars cs ++ '"' :: rest))
            = (parseStrBody f (escChars cs ++ '"' :: rest)).map
                (fun p => ('"' :: p.1, p.2)) from rfl]
        rw [ih f rest hlen]; rfl
      by_cases hb : c = '\\'
      · subst hb
        rw [show escapeChar '\\' = ['\\', '\\'] from rfl]
        rw [show (['\\', '\\'] : List Char) ++ (escChars cs ++ '"' :: rest)
            = '\\' :: '\\' :: (escChars cs ++ '"' :: rest) from rfl]
        rw [show parseStrBody (f + 1) ('\\' :: '\\' :: (escChars cs ++ '"' :: rest))
            = (parseStrBody f (escChars cs ++ '"' :: rest)).map
                (fun p => ('\\' :: p.1, p.2)) from rfl]
        rw [ih f rest hlen]; rfl
      by_cases hn : c = '\n'
      · subst hn
        rw [show escapeChar '\n' = ['\\', 'n'] from rfl]
        rw [show (['\\', 'n'] : List Char) ++ (escChars cs ++ '"' :: rest)
            = '\\' :: 'n' :: (escChars cs ++ '"' :: rest) from rfl]
        rw [show parseStrBody (f + 1) ('\\' :: 'n' :: (escChars cs ++ '"' :: rest))
            = (parseStrBody f (escChars cs ++ '"' :: rest)).map
                (fun p => ('\n' :: p.1, p.2)) from rfl]
        rw [ih f rest hlen]; rfl
      by_cases ht : c = '\t'
      · subst ht
        rw [show escapeChar '\t' = ['\\', 't'] from rfl]
        rw [show (['\\', 't'] : List Char) ++ (escChars cs ++ '"' :: rest)
            = '\\' :: 't' :: (escChars cs ++ '"' :: rest) from rfl]
        rw [show parseStrBody (f + 1) ('\\' :: 't' :: (escChars cs ++ '"' :: rest))
            = (parseStrBody f (escChars cs ++ '"' :: rest)).map
                (fun p => ('\t' :: p.1, p.2)) from rfl]
        rw [ih f rest hlen]; rfl
      by_cases hr : c = '\r'
      · subst hr
        rw [show escapeChar '\r' = ['\\', 'r'] from rfl]
        rw [show (['\\', 'r'] : List Char) ++ (escChars cs ++ '"' :: rest)
            = '\\' :: 'r' :: (escChars cs ++ '"' :: rest) from rfl]
        rw [show parseStrBody (f + 1) ('\\' :: 'r' :: (escChars cs ++ '"' :: rest))
            = (parseStrBody f (escChars cs ++ '"' :: rest)).map
                (fun p => ('\r' :: p.1, p.2)) from rfl]
        rw [ih f rest hlen]; rfl
      by_cases hc : c.toNat < 32
      · rw [escapeChar, if_neg hq, if_neg hb, if_neg hn, if_neg ht, if_neg hr,
          if_pos hc]
        have e1 : c.toNat / 4096 % 16 = 0 := by omega
        have e2 : c.toNat / 256 % 16 = 0 := by omega
        have e3 : c.toNat / 16 % 16 = c.toNat / 16 := by omega
        rw [hex4, e1, e2, e3]
        rw [show ('\\' :: 'u' ::
              [Nat.digitChar 0, Nat.digitChar 0, Nat.digitChar (c.toNat / 16),
               Nat.digitChar (c.toNat % 16)]) ++ (escChars cs ++ '"' :: rest)
            = '\\' :: 'u' :: Nat.digitChar 0 :: Nat.digitChar 0 ::
              Nat.digitChar (c.toNat / 16) :: Nat.digitChar (c.toNat % 16) ::
              (escChars cs ++ '"' :: rest) from rfl]
        rw [parseStrBody_hex]
        rw [fromHex_digitChar 0 (by norm_num),
          fromHex_digitChar (c.toNat / 16) (by omega),
          fromHex_digitChar (c.toNat % 16) (by omega)]
        have hval : ((0 * 16 + 0) * 16 + c.toNat / 16) * 16 + c.toNat % 16
            = c.toNat := by omega
        simp only [hval]
        rw [if_pos (isValidChar_toNat c), ih f rest hlen]
        simp [Char.ofNat_toNat]
      · rw [escapeChar, if_neg hq, if_neg hb, if_neg hn, if_neg ht, if_neg hr,
          if_neg hc]
        rw [show ([c] : List Char) ++ (escChars cs ++ '"' :: rest)
            = c :: (escChars cs ++ '"' :: rest) from rfl]
        rw [parseStrBody_ord f c _ hq hb, ih f rest hlen]
        rfl

/-! Round-trip lemmas: shape of serialized values. -/

theorem serV_head (v : Json) : ∃ c cs, serV v = c :: cs ∧ ¬ c = ']' := by
  cases v with
  | null => exact ⟨'n', ['u', 'l', 'l'], by simp [serV, nullChars], by decide⟩
  | bool b =>
    cases b with
    | false =>
      exact ⟨'f', ['a', 'l', 's', 'e'], by simp [serV, falseChars], by decide⟩
    | true => exact ⟨'t', ['r', 'u', 'e'], by simp [serV, trueChars], by decide⟩
  | num i =>
    by_cases hi : i < 0
    · exact ⟨'-', natChars i.natAbs, by simp [serV, hi], by decide⟩
    · obtain ⟨c, cs, hc⟩ := natChars_cons i.toNat
      have hd : c.isDigit = true :=
        natChars_all_digits _ c (by rw [hc]; exact List.mem_cons_self c cs)
      refine ⟨c, cs, by simp [serV, hi, hc], fun he => ?_⟩
      subst he
      exact absurd hd (by decide)
  | str s => exact ⟨'"', escChars s.data ++ ['"'], by simp [serV], by decide⟩
  | arr xs => exact ⟨'[', serElems xs ++ [']'], by simp [serV], by decide⟩
  | obj ms => exact ⟨lbrace, serMembers ms ++ [rbrace], by simp [serV], by decide⟩

/-! Round-trip lemmas: conditional step equations of the parser. -/

theorem parseCore_val_digit (f : Nat) (c : Char) (l : List Char)
    (h : c.isDigit = true) :
    parseCore (f + 1) 0 (c :: l) = parseNum (c :: l) := by
  simp only [parseCore]
  rw [if_pos h]

theorem parseCore_elems_cons (f : Nat) (c : Char) (l : List Char)
    (h : ¬ c = ']') :
    parseCore (f + 1) 1 (c :: l) =
      match parseCore f 0 (c :: l) with
      | none => none
      | some (v, r) =>
        match r with
        | ',' :: r2 =>
          (match parseCore f 1 r2 with
           | some (.arr vs, r3) => some (.arr (v :: vs), r3)
           | _ => none)
        | ']' :: r2 => some (.arr [v], r2)
        | _ => none := by
  simp only [parseCore]
  rw [if_neg h]

/-! The main round-trip theorem, by induction on the parser's fuel. -/

theorem parseCore_roundtrip : ∀ fuel : Nat,
    (∀ (v : Json) (rest : List Char),
      (serV v).length < fuel → headNotDigit rest = true →
      parseCore fuel 0 (serV v ++ rest) = some (v, rest)) ∧
    (∀ (xs : List Json) (rest : List Char),
      (serElems xs).length + 1 < fuel →
      parseCore fuel 1 (serElems xs ++ ']' :: rest) = some (.arr xs, rest)) ∧
    (∀ (ms : List (String × Json)) (rest : List Char),
      (serMembers ms).length + 1 < fuel →
      parseCore fuel 2 (serMembers ms ++ rbrace :: rest) = some (.obj ms, rest)) := by
  intro fuel
  induction fuel with
  | zero =>
    refine ⟨fun v rest h _ => absurd h (by omega),
      fun xs rest h => absurd h (by omega),
      fun ms rest h => absurd h (by omega)⟩
  | succ f ih =>
    obtain ⟨ihP, ihQ, ihR⟩ := ih
    refine ⟨?_, ?_, ?_⟩
    · intro v rest hlen hrest
      cases v with
      | null =>
        rw [show serV Json.null = ['n', 'u', 'l', 'l'] from by
          simp [serV, nullChars]]
        rfl
      | bool b =>
        cases b with
        | true =>
          rw [show serV (Json.bool true) = ['t', 'r', 'u', 'e'] from by
            simp [serV, trueChars]]
          rfl
        | false =>
          rw [show serV (Json.bool false) = ['f', 'a', 'l', 's', 'e'] from by
            simp [serV, falseChars]]
          rfl
      | num i =>
        by_cases hi : i < 0
        · rw [show serV (Json.num i) = '-' :: natChars i.natAbs from by
            simp [serV, hi], List.cons_append]
          rw [show parseCore (f + 1) 0 ('-' :: (natChars i.natAbs ++ rest))
              = parseNeg (natChars i.natAbs ++ rest) from rfl]
          rw [parseNeg_digits _ _ (natChars_all_digits _) hrest (natChars_ne_nil _),
            digitsToNat_natChars]
          have hv : -((i.natAbs : Nat) : Int) = i := by omega
          rw [hv]
        · obtain ⟨c, cs, hc⟩ := natChars_cons i.toNat
          have hd : c.isDigit = true :=
            natChars_all_digits _ c (by rw [hc]; exact List.mem_cons_self c cs)
          rw [show serV (Json.num i) = natChars i.toNat from by simp [serV, hi],
            hc, List.cons_append, parseCore_val_digit f c _ hd,
            show c :: (cs ++ rest) = (c :: cs) ++ rest from rfl, ← hc,
            parseNum_digits _ _ (natChars_all_digits _) hrest (natChars_ne_nil _),
            digitsToNat_natChars]
          have hv : ((i.toNat : Nat) : Int) = i := by omega
          rw [hv]
      | str s =>
        rw [show serV (Json.str s) = '"' :: (escChars s.data ++ ['"']) from by
          simp [serV], List.cons_append, List.append_assoc,
          show (['"'] : List Char) ++ rest = '"' :: rest from rfl]
        rw [show parseCore (f + 1) 0 ('"' :: (escChars s.data ++ '"' :: rest))
            = (parseStrBody (f + 1) (escChars s.data ++ '"' :: rest)).map
                (fun p => (Json.str (String.mk p.1), p.2)) from rfl]
        have hl : s.data.length < f + 1 := by
          have h1 := length_le_escChars s.data
          have h2 : (serV (Json.str s)).length
              = (escChars s.data).length + 2 := by
            simp [serV]
          omega
        rw [parseStrBody_escape s.data (f + 1) rest hl]
        rfl
      | arr xs =>
        rw [show serV (Json.arr xs) = '[' :: (serElems xs ++ [']']) from by
          simp [serV], List.cons_append, List.append_assoc,
          show ([']'] : List Char) ++ rest = ']' :: rest from rfl]
        rw [show parseCore (f + 1) 0 ('[' :: (serElems xs ++ ']' :: rest))
            = parseCore f 1 (serElems xs ++ ']' :: rest) from rfl]
        apply ihQ
        have h2 : (serV (Json.arr xs)).length = (serElems xs).length + 2 := by
          simp [serV]
        omega
      | obj ms =>
        rw [show serV (Json.obj ms) = lbrace :: (serMembers ms ++ [rbrace]) from by
          simp [serV], List.cons_append, List.append_assoc,
          show ([rbrace] : List Char) ++ rest = rbrace :: rest from rfl]
        rw [show parseCore (f + 1) 0 (lbrace :: (serMembers ms ++ rbrace :: rest))
            = parseCore f 2 (serMembers ms ++ rbrace :: rest) from rfl]
        apply ihR
        have h2 : (serV (Json.obj ms)).length = (serMembers ms).length + 2 := by
          simp [serV]
        omega
    · intro xs rest hlen
      cases xs with
      | nil =>
        rw [show serElems [] = ([] : List Char) from by simp [serElems],
          List.nil_append]
        rfl
      | cons x xs =>
        obtain ⟨c, cs, hserx, hcne⟩ := serV_head x
        cases xs with
        | nil =>
          have hse : serElems [x] = serV x := by simp [serElems]
          have hl : (serV x).length < f := by
            rw [hse] at hlen; omega
          rw [hse, hserx, List.cons_append, parseCore_elems_cons f c _ hcne,
            show c :: (cs ++ ']' :: rest) = (c :: cs) ++ ']' :: rest from rfl,
            ← hserx, ihP x (']' :: rest) hl rfl]
          rfl
        | cons y ys =>
          have hse : serElems (x :: y :: ys)
              = serV x ++ ',' :: serElems (y :: ys) := by simp [serElems]
          have hlx : (serV x).length < f := by
            rw [hse] at hlen; simp [List.length_append] at hlen; omega
          have hly : (serElems (y :: ys)).length + 1 < f := by
            rw [hse] at hlen; simp [List.length_append] at hlen; omega
          rw [hse, List.append_assoc, List.cons_append, hserx, List.cons_append,
            parseCore_elems_cons f c _ hcne,
            show c :: (cs ++ (',' :: (serElems (y :: ys) ++ ']' :: rest)))
              = (c :: cs) ++ (',' :: (serElems (y :: ys) ++ ']' :: rest)) from rfl,
            ← hserx,
            ihP x (',' :: (serElems (y :: ys) ++ ']' :: rest)) hlx rfl]
          show (match parseCore f 1 (serElems (y :: ys) ++ ']' :: rest) with
            | some (.arr vs, r3) => some (Json.arr (x :: vs), r3)
            | _ => none) = some (Json.arr (x :: y :: ys), rest)
          rw [ihQ (y :: ys) rest hly]
    · intro ms rest hlen
      cases ms with
      | nil =>
        rw [show serMembers [] = ([] : List Char) from by simp [serMembers],
          List.nil_append]
        rfl
      | cons kv ms =>
        obtain ⟨k, v⟩ := kv
        cases ms with
        | nil =>
          have hse : serMembers [(k, v)]
              = '"' :: (escChars k.data ++ ('"' :: ':' :: serV v)) := by
            simp [serMembers]
          have hkl : k.data.length < f + 1 := by
            have h1 := length_le_escChars k.data
            rw [hse] at hlen
            simp [List.length_append] at hlen
            omega
          have hvl : (serV v).length < f := by
            rw [hse] at hlen
            simp [List.length_append] at hlen
            omega
          rw [hse, List.cons_append, List.append_assoc, List.cons_append,
            List.cons_append]
          show parseCore (f + 1) 2
              ('"' :: (escChars k.data ++
                ('"' :: ':' :: (serV v ++ rbrace :: rest))))
            = some (Json.obj [(k, v)], rest)
          rw [show parseCore (f + 1) 2
              ('"' :: (escChars k.data ++
                ('"' :: ':' :: (serV v ++ rbrace :: rest))))
            = (match parseStrBody (f + 1)
                  (escChars k.data ++ ('"' :: ':' :: (serV v ++ rbrace :: rest))) with
               | none => none
               | some (ks, r) =>
                 match r with
                 | ':' :: r2 =>
                   (match parseCore f 0 r2 with
                    | none => none
                    | some (w, r3) =>
                      match r3 with
                      | ',' :: r4 =>
                        (match parseCore f 2 r4 with
                         | some (.obj ns, r5) =>
                             some (.obj ((String.mk ks, w) :: ns), r5)
                         | _ => none)
                      | c4 :: r4 =>
                        if c4 = rbrace then some (.obj [(String.mk ks, w)], r4)
                        else none
                      | _ => none)
                 | _ => none) from rfl]
          rw [show escChars k.data ++ ('"' :: ':' :: (serV v ++ rbrace :: rest))
              = escChars k.data ++ '"' :: (':' :: (serV v ++ rbrace :: rest))
              from rfl,
            parseStrBody_escape k.data (f + 1) _ hkl]
          show (match parseCore f 0 (serV v ++ rbrace :: rest) with
            | none => none
            | some (w, r3) =>
              match r3 with
              | ',' :: r4 =>
                (match parseCore f 2 r4 with
                 | some (.obj ns, r5) =>
                     some (.obj ((String.mk k.data, w) :: ns), r5)
                 | _ => none)
              | c4 :: r4 =>
                if c4 = rbrace then some (.obj [(String.mk k.data, w)], r4)
                else none
              | _ => none) = some (Json.obj [(k, v)], rest)
          rw [ihP v (rbrace :: rest) hvl rfl]
          show (if rbrace = rbrace
            then some (Json.obj [(String.mk k.data, v)], rest) else none)
            = some (Json.obj [(k, v)], rest)
          rw [if_pos rfl]
        | cons m mss =>
          have hse : serMembers ((k, v) :: m :: mss)
              = '"' :: (escChars k.data ++
                  ('"' :: ':' :: (serV v ++ ',' :: serMembers (m :: mss)))) := by
            simp [serMembers]
          have hkl : k.data.length < f + 1 := by
            have h1 := length_le_escChars k.data
            rw [hse] at hlen
            simp [List.length_append] at hlen
            omega
          have hvl : (serV v).length < f := by
            rw [hse] at hlen
            simp [List.length_append] at hlen
            omega
          have hml : (serMembers (m :: mss)).length + 1 < f := by
            rw [hse] at hlen
            simp [List.length_append] at hlen
            omega
          rw [hse, List.cons_append, List.append_assoc, List.cons_append,
            List.cons_append, List.append_assoc, List.cons_append]
          show parseCore (f + 1) 2
              ('"' :: (escChars k.data ++
                ('"' :: ':' :: (serV v ++
                  (',' :: (serMembers (m :: mss) ++ rbrace :: rest))))))
            = some (Json.obj ((k, v) :: m :: mss), rest)
          rw [show parseCore (f + 1) 2
              ('"' :: (escChars k.data ++
                ('"' :: ':' :: (serV v ++
                  (',' :: (serMembers (m :: mss) ++ rbrace :: rest))))))
            = (match parseStrBody (f + 1)
                  (escChars k.data ++
                    ('"' :: ':' :: (serV v ++
                      (',' :: (serMembers (m :: mss) ++ rbrace :: rest))))) with
               | none => none
               | some (ks, r) =>
                 match r with
                 | ':' :: r2 =>
                   (match parseCore f 0 r2 with
                    | none => none
                    | some (w, r3) =>
                      match r3 with
                      | ',' :: r4 =>
                        (match parseCore f 2 r4 with
                         | some (.obj ns, r5) =>
                             some (.obj ((String.mk ks, w) :: ns), r5)
                         | _ => none)
                      | c4 :: r4 =>
                        if c4 = rbrace then some (.obj [(String.mk ks, w)], r4)
                        else none
                      | _ => none)
                 | _ => none) from rfl]
          rw [show escChars k.data ++
                ('"' :: ':' :: (serV v ++
                  (',' :: (serMembers (m :: mss) ++ rbrace :: rest))))
              = escChars k.data ++ '"' ::
                  (':' :: (serV v ++
                    (',' :: (serMembers (m :: mss) ++ rbrace :: rest))))
              from rfl,
            parseStrBody_escape k.data (f + 1) _ hkl]
          show (match parseCore f 0
              (serV v ++ (',' :: (serMembers (m :: mss) ++ rbrace :: rest))) with
            | none => none
            | some (w, r3) =>
              match r3 with
              | ',' :: r4 =>
                (match parseCore f 2 r4 with
                 | some (.obj ns, r5) =>
                     some (.obj ((String.mk k.data, w) :: ns), r5)
                 | _ => none)
              | c4 :: r4 =>
                if c4 = rbrace then some (.obj [(String.mk k.data, w)], r4)
                else none
              | _ => none) = some (Json.obj ((k, v) :: m :: mss), rest)
          rw [ihP v (',' :: (serMembers (m :: mss) ++ rbrace :: rest)) hvl rfl]
          show (match parseCore f 2 (serMembers (m :: mss) ++ rbrace :: rest) with
            | some (.obj ns, r5) =>
                some (Json.obj ((String.mk k.data, v) :: ns), r5)
            | _ => none) = some (Json.obj ((k, v) :: m :: mss), rest)
          rw [ihR (m :: mss) rest hml]

/-- Serialize-then-parse is the identity on JSON values. -/
theorem parseJson_serializeJson (v : Json) :
    parseJson (serializeJson v) = some v := by
  have h := (parseCore_roundtrip ((serV v).length + 1)).1 v [] (by omega) rfl
  rw [List.append_nil] at h
  have h2 : parseCore ((serializeJson v).data.length + 1) 0
      (serializeJson v).data = some (v, []) := h
  rw [parseJson, h2]

/-- C7: for every JSON-representable value, every invocation of the handler
produced by `json_response` returns a successful result with status 200 whose
body is the JSON serialization of the value, and parsing that body back yields
a JSON value deep-equal to the original (serialize-then-parse is the
identity). -/
theorem json_response_roundtrip (v : Json) (inv : Nat) :
    json_response v inv =
      Except.ok { status := 200, body := serializeJson v } ∧
    parseJson (serializeJson v) = some v :=
  ⟨rfl, parseJson_serializeJson v⟩

end Ironn
